import Mathlib

/-!
Verification of the documentation-build scripts `scripts/build_docs.py` and
`scripts/convert_repo_to_pdf.py`.

File-system paths are modelled as their list of components
(`pathlib.PurePath.parts`), and the file system as a finite list of entries
(files and directories).  External command-line tools (pandoc, jupyter,
mkdocs, wkhtmltopdf) are modelled by availability flags and abstract
output functions in an environment record; the scripts' own logic
(scanning, destination mapping, fallback policy, table-of-contents
assembly, text cleanup, aggregation) is translated directly.

Paths are compared componentwise (lexicographically on the part lists,
via the lexicographic order on `List String`), modelling Python's sorting
of `Path` values.
-/

/-- A file-system path as its list of components (`pathlib.PurePath.parts`). -/
abbrev PyPath := List String

/-- The final component of a path (`PurePath.name`); `""` for the empty path. -/
def pathName (p : PyPath) : String := p.getLast?.getD ""

/-- Index of the last `'.'` in a character list (`str.rfind('.')`),
counting from position `i` for the head. -/
def rfindDotAux : List Char → Nat → Option Nat
  | [], _ => none
  | c :: rest, i =>
    match rfindDotAux rest (i + 1) with
    | some j => some j
    | none => if c = '.' then some i else none

/-- `PurePath.suffix`: the extension of the final component, beginning with the
last dot, empty when the name has no dot, starts with its only dot, or ends
with the dot. -/
def pathSuffix (p : PyPath) : String :=
  let name := pathName p
  match rfindDotAux name.data 0 with
  | some i => if 0 < i && i < name.data.length - 1 then ⟨name.data.drop i⟩ else ""
  | none => ""

/-- `PurePath.stem`: the final component without its suffix. -/
def pathStem (p : PyPath) : String :=
  let name := pathName p
  match rfindDotAux name.data 0 with
  | some i => if 0 < i && i < name.data.length - 1 then ⟨name.data.take i⟩ else name
  | none => name

/-- `PurePath.with_suffix(".md")`: drop the existing suffix (if any) from the
final component and append `".md"`. -/
def withSuffixMd (p : PyPath) : PyPath :=
  let name := pathName p
  let old := pathSuffix p
  let newName :=
    if old = "" then name ++ ".md"
    else String.mk (name.data.take (name.data.length - old.data.length)) ++ ".md"
  p.dropLast ++ [newName]

/-- `str(path)` for a relative POSIX path: components joined with `/`. -/
def joinPath (p : PyPath) : String := String.intercalate "/" p

/-- `str.lower()`, character by character (the extensions compared are
ASCII). -/
def strLower (s : String) : String := ⟨s.data.map Char.toLower⟩

/-- One file-system entry: a path, whether it is a directory, and (for files)
its byte content. -/
structure FsEntry where
  path : PyPath
  isDir : Bool
  content : String
deriving DecidableEq, Repr

/-- A file system: a finite list of entries. -/
structure FS where
  entries : List FsEntry
deriving DecidableEq, Repr

/-- `dir.rglob("*")`: every entry (file or directory) lying strictly below
`dir`. -/
def rglobAll (dir : PyPath) (fs : FS) : List PyPath :=
  (fs.entries.filter (fun e => dir.isPrefixOf e.path && decide (dir.length < e.path.length))).map
    (·.path)

/-- Whether some entry (file or directory) has exactly this path
(`Path.exists()`). -/
def fsExists (fs : FS) (p : PyPath) : Bool := fs.entries.any (fun e => e.path = p)

/-- Content of the file at `p` (empty if absent); models reading/copying the
file's bytes. -/
def readFile (fs : FS) (p : PyPath) : String :=
  match fs.entries.find? (fun e => e.path = p && !e.isDir) with
  | some e => e.content
  | none => ""

namespace BuildDocs

/-- `SOURCE_DIRS = [Path("articles"), Path("examples")]`. -/
def SOURCE_DIRS : List PyPath := [["articles"], ["examples"]]

/-- `BUILD_DIR = Path("docs/build")`. -/
def BUILD_DIR : PyPath := ["docs", "build"]

/-- `TOC_PATH = Path("docs/toc.yaml")`. -/
def TOC_PATH : PyPath := ["docs", "toc.yaml"]

/-- `PDF_PATH = Path("dist/OpenAI_Cookbook.pdf")`. -/
def PDF_PATH : PyPath := ["dist", "OpenAI_Cookbook.pdf"]

/-- The recognized extensions `{".md", ".mdx", ".ipynb"}`. -/
def exts : List String := [".md", ".mdx", ".ipynb"]

/-- `gather_sources`: for each source directory, every path of `rglob("*")`
whose lower-cased suffix is a recognized extension, in walk order. -/
def gather_sources (fs : FS) : List PyPath :=
  SOURCE_DIRS.flatMap (fun d =>
    (rglobAll d fs).filter (fun p => exts.contains (strLower (pathSuffix p))))

/-- Execution environment for `build_docs.py`: the file system, availability
of the external commands (`ensure_command`), and abstract outputs of the
external converters. -/
structure Env where
  fs : FS
  pandoc : Bool
  jupyter : Bool
  mkdocs : Bool
  /-- Output written by `pandoc src -t gfm -o dest` for a given source. -/
  pandocOut : PyPath → String
  /-- Output written by `jupyter nbconvert --to markdown` for a given source. -/
  jupyterOut : PyPath → String
  /-- PDF bytes produced by `pandoc *files -o PDF_PATH`. -/
  pandocPdf : List PyPath → String

/-- A file write: destination path and content. -/
abbrev Write := PyPath × String

/-- `root = src.parts[0]` in `generate_docs`. -/
def srcRoot (src : PyPath) : String := src.head?.getD ""

/-- `rel = Path(*src.parts[1:])` in `generate_docs`: the source path relative
to its source directory. -/
def srcRel (src : PyPath) : PyPath := src.drop 1

/-- The destination for a source path in `generate_docs`:
`BUILD_DIR / root / rel.with_suffix(".md")`. -/
def destOf (src : PyPath) : PyPath :=
  BUILD_DIR ++ [srcRoot src] ++ withSuffixMd (srcRel src)

/-- The error message raised by `convert_notebook` when jupyter is absent. -/
def nbErr : String := "jupyter nbconvert is required to convert notebooks"

/-- Processing of one gathered source inside `generate_docs`: markdown/MDX
sources go through `convert_markdown` (pandoc when available, else a verbatim
copy of the source bytes), notebooks through `convert_notebook` (nbconvert
when available, else a fatal `RuntimeError`). Returns the writes performed. -/
def processSource (env : Env) (src : PyPath) : Except String (List Write) :=
  if exts.take 2 |>.contains (strLower (pathSuffix src)) then
    .ok [(destOf src, if env.pandoc then env.pandocOut src else readFile env.fs src)]
  else if strLower (pathSuffix src) = ".ipynb" then
    if env.jupyter then .ok [(destOf src, env.jupyterOut src)]
    else .error nbErr
  else .ok []

/-- One step of the `generate_docs` loop: a raised error aborts the rest. -/
def docsStep (env : Env) (acc : Option String × List Write) (src : PyPath) :
    Option String × List Write :=
  match acc with
  | (some e, ws) => (some e, ws)
  | (none, ws) =>
    match processSource env src with
    | .ok w => (none, ws ++ w)
    | .error e => (some e, ws)

/-- `generate_docs`: convert every gathered source in order (stopping at the
first raised error), then copy `README.md` to `BUILD_DIR/index.md` when it
exists. Returns the raised error (if any) and the writes performed. -/
def generate_docsRun (env : Env) : Option String × List Write :=
  match (gather_sources env.fs).foldl (docsStep env) (none, []) with
  | (some e, ws) => (some e, ws)
  | (none, ws) =>
    (none, ws ++
      (if fsExists env.fs ["README.md"] then
        [(BUILD_DIR ++ ["index.md"], readFile env.fs ["README.md"])]
      else []))

end BuildDocs

section LexOrder

variable {α : Type} (lt : α → α → Bool)

/-- Strict lexicographic comparison of lists by a strict comparison of
elements (the order used by Python when sorting tuples/strings/paths). -/
def lexLT : List α → List α → Bool
  | [], [] => false
  | [], _ :: _ => true
  | _ :: _, [] => false
  | a :: as, b :: bs => if lt a b then true else if lt b a then false else lexLT as bs

end LexOrder

/-- Strict comparison of characters by code point. -/
def charLTb (c d : Char) : Bool := decide (c < d)

/-- Strict comparison of strings: lexicographic on their characters
(Python string comparison). -/
def strLTb (s t : String) : Bool := lexLT charLTb s.data t.data

/-- Strict comparison of paths: lexicographic on their components. -/
def pathLTb (p q : PyPath) : Bool := lexLT strLTb p q

/-- The (total) path order used for sorting: `p ≤ q` iff `q` is not strictly
below `p`. -/
def pathLE (p q : PyPath) : Prop := pathLTb q p = false

instance : DecidableRel pathLE := fun p q => instDecidableEqBool (pathLTb q p) false

/-- The key order for `yaml.safe_dump(..., sort_keys=True)`. -/
def strLE (s t : String) : Prop := strLTb t s = false

instance : DecidableRel strLE := fun s t => instDecidableEqBool (strLTb t s) false

/-- `str.endsWith`, at the character-list level. -/
def strEndsWith (s suf : String) : Bool := suf.data.isSuffixOf s.data

/-- Python's `sorted` on paths: sort by the lexicographic order on the
component lists. -/
def sortPaths (l : List PyPath) : List PyPath := l.insertionSort pathLE

/-- The characters `str.splitlines` treats as line boundaries. -/
def isLineBreakChar (c : Char) : Bool :=
  c = '\n' || c = '\r' || c = '\x0b' || c = '\x0c' ||
    c = '\x1c' || c = '\x1d' || c = '\x1e' || c = '\x85' ||
    c = '\u2028' || c = '\u2029'

/-- The characters `str.strip()` / `str.rstrip()` remove (Python string
whitespace). -/
def isPySpace (c : Char) : Bool :=
  c = ' ' || c = '\t' || c = '\n' || c = '\x0b' || c = '\x0c' || c = '\r' ||
    c = '\x1c' || c = '\x1d' || c = '\x1e' || c = '\x1f' || c = '\x85' || c = '\xa0' ||
    c = '\u1680' || ('\u2000' ≤ c && c ≤ '\u200a') || c = '\u2028' || c = '\u2029' ||
    c = '\u202f' || c = '\u205f' || c = '\u3000'

/-- `str.splitlines`: cut at every line-boundary character, treating `"\r\n"`
as a single boundary; a final segment is kept only when nonempty.  The
accumulator holds the current line reversed. -/
def splitlinesAux : List Char → List Char → List (List Char)
  | [], acc => if acc = [] then [] else [acc.reverse]
  | c :: rest, acc =>
    if isLineBreakChar c then
      acc.reverse ::
        (if c = '\r' then
          match rest with
          | [] => []
          | d :: rest2 =>
            if d = '\n' then splitlinesAux rest2 [] else splitlinesAux (d :: rest2) []
        else splitlinesAux rest [])
    else splitlinesAux rest (c :: acc)

/-- `str.splitlines` on a character list. -/
def splitlinesL (cs : List Char) : List (List Char) := splitlinesAux cs []

/-- `str.lstrip()` on a character list. -/
def lstripL (l : List Char) : List Char := l.dropWhile isPySpace

/-- `str.rstrip()` on a character list. -/
def rstripL (l : List Char) : List Char := (l.reverse.dropWhile isPySpace).reverse

/-- `str.strip()` on a character list. -/
def stripL (l : List Char) : List Char := lstripL (rstripL l)

/-- A character list free of line-boundary characters (as every line produced
by `splitlinesL` is). -/
def noBreak (l : List Char) : Prop := ∀ c ∈ l, isLineBreakChar c = false

/-- Drop a final empty segment (what a join-then-split round trip loses). -/
def dropLastEmpty (L : List (List Char)) : List (List Char) :=
  if L.getLast? = some [] then L.dropLast else L

namespace RepoPdf

/-- The regex `^#!/usr/bin/env python` is a literal prefix pattern. -/
def shebangPat : List Char := "#!/usr/bin/env python".data

/-- The regex `^# coding: utf-8` is a literal prefix pattern. -/
def codingPat : List Char := "# coding: utf-8".data

/-- `any(p.match(line.strip()) for p in DROP_PATTERNS)`: the stripped line
starts with one of the two configured boilerplate patterns. -/
def isBoilerplate (l : List Char) : Bool :=
  shebangPat.isPrefixOf (stripL l) || codingPat.isPrefixOf (stripL l)

/-- The line loop of `clean_text`: drop boilerplate lines, right-strip the
retained ones. -/
def cleanLines : List (List Char) → List (List Char)
  | [] => []
  | l :: rest => if isBoilerplate l then cleanLines rest else rstripL l :: cleanLines rest

/-- `"\n".join(...)` on character lists. -/
def joinNL : List (List Char) → List Char
  | [] => []
  | l :: rest =>
    l ++
      (match rest with
        | [] => []
        | _ :: _ => '\n' :: joinNL rest)

/-- `clean_text`: split into lines, drop boilerplate lines, right-strip the
retained lines, and join with newlines. -/
def clean_text (s : String) : String := ⟨joinNL (cleanLines (splitlinesL s.data))⟩

/-- The spec's description of the cleaner, for comparison with `clean_text`:
remove exactly the lines whose trimmed content matches a configured
boilerplate pattern (shebang or encoding declaration), trim trailing
whitespace from every retained line, and join with newlines. -/
def clean_text_spec (s : String) : String :=
  ⟨joinNL (((splitlinesL s.data).filter (fun l => !isBoilerplate l)).map rstripL)⟩

/-- Execution environment for `convert_repo_to_pdf.py`: the repository tree
(paths relative to the repository root) and the two fallible per-file
readers, `nbformat.read` + `MarkdownExporter.from_notebook_node` for
notebooks and `Path.read_text` for other files; an `Except.error` models a
raised exception. -/
structure PEnv where
  fs : FS
  nbSource : PyPath → Except String String
  readText : PyPath → Except String String

/-- `notebook_to_markdown`: export the notebook, then clean the body. -/
def notebook_to_markdown (env : PEnv) (p : PyPath) : Except String String :=
  (env.nbSource p).map clean_text

/-- `markdown_file_to_markdown`: read the file, then clean the text. -/
def markdown_file_to_markdown (env : PEnv) (p : PyPath) : Except String String :=
  (env.readText p).map clean_text

/-- `repo_root.rglob("*.ipynb")`: entries whose name ends in `.ipynb`,
in walk order. -/
def globNb (fs : FS) : List PyPath :=
  (fs.entries.filter (fun e => strEndsWith (pathName e.path) ".ipynb")).map (·.path)

/-- `repo_root.rglob("*.md")`: entries whose name ends in `.md`,
in walk order. -/
def globMd (fs : FS) : List PyPath :=
  (fs.entries.filter (fun e => strEndsWith (pathName e.path) ".md")).map (·.path)

/-- `paths = sorted(repo_root.rglob("*.ipynb")) + sorted(repo_root.rglob("*.md"))`. -/
def buildPaths (fs : FS) : List PyPath := sortPaths (globNb fs) ++ sortPaths (globMd fs)

/-- The per-file conversion attempted in the `build_markdown` loop. -/
def convertOf (env : PEnv) (p : PyPath) : Except String String :=
  if pathSuffix p = ".ipynb" then notebook_to_markdown env p
  else markdown_file_to_markdown env p

/-- The diagnostic printed when a file is skipped. -/
def skipMsg (p : PyPath) (e : String) : String :=
  "Skipping " ++ joinPath p ++ " due to " ++ e

/-- The section text appended for a successfully converted file:
`f"# {rel}\n\n{content}\n"`. -/
def sectionFor (env : PEnv) (p : PyPath) : String :=
  "# " ++ joinPath p ++ "\n\n" ++ ((convertOf env p).toOption.getD "") ++ "\n"

/-- One iteration of the `build_markdown` loop: a raised conversion error is
caught, printed, and the file skipped. -/
def pdfStep (env : PEnv) (acc : List String × List String) (p : PyPath) :
    List String × List String :=
  match convertOf env p with
  | .error e => (acc.1, acc.2 ++ [skipMsg p e])
  | .ok content => (acc.1 ++ ["# " ++ joinPath p ++ "\n\n" ++ content ++ "\n"], acc.2)

/-- `build_markdown`: the aggregated document and the printed diagnostics. -/
def build_markdown (env : PEnv) : String × List String :=
  let r := (buildPaths env.fs).foldl (pdfStep env) ([], [])
  (String.intercalate "\n" r.1, r.2)

/-- Every file either aggregation pass discovers: notebooks and markdown
files, in walk order. -/
def allDocFiles (fs : FS) : List PyPath :=
  (fs.entries.filter (fun e =>
    strEndsWith (pathName e.path) ".ipynb" || strEndsWith (pathName e.path) ".md")).map
    (·.path)

/-- Sort key component separating the two discovery passes: notebooks first. -/
def kindKey (p : PyPath) : Nat := if strEndsWith (pathName p) ".ipynb" then 0 else 1

/-- The composite order realized by `sorted(*.ipynb) + sorted(*.md)`:
lexicographic path order with notebooks listed before markdown files. -/
def compositeLE (p q : PyPath) : Prop :=
  kindKey p < kindKey q ∨ (kindKey p = kindKey q ∧ pathLE p q)

instance : DecidableRel compositeLE := fun p q => by
  unfold compositeLE
  infer_instance

end RepoPdf

/-- Fixture for C8: three discovered files, of which `bad.md` will fail. -/
def fsC8 : FS :=
  ⟨[⟨["a.md"], false, ""⟩, ⟨["bad.md"], false, ""⟩, ⟨["nb.ipynb"], false, ""⟩]⟩

/-- Environment for C8's witness: conversion raises exactly on `bad.md`. -/
def envC8 : RepoPdf.PEnv :=
  { fs := fsC8,
    nbSource := fun _ => .ok "NBBODY",
    readText := fun p => if p = ["bad.md"] then .error "boom" else .ok "MDBODY" }

/-- Fixture for C9: notebooks and markdown files interleaved in walk order. -/
def fsC9 : FS :=
  ⟨[⟨["b.md"], false, ""⟩, ⟨["c.ipynb"], false, ""⟩, ⟨["a.ipynb"], false, ""⟩]⟩

/-- Environment for C9's witness: every conversion succeeds. -/
def envC9 : RepoPdf.PEnv :=
  { fs := fsC9,
    nbSource := fun _ => .ok "NBBODY",
    readText := fun _ => .ok "MDBODY" }

/-- `str.title()` on ASCII text: a letter is upper-cased when the previous
character is not a letter, lower-cased otherwise. -/
def titleChars : List Char → Bool → List Char
  | [], _ => []
  | c :: rest, prevCased =>
    (if c.isAlpha then (if prevCased then c.toLower else c.toUpper) else c) ::
      titleChars rest c.isAlpha

/-- `str.title()`. -/
def strTitle (s : String) : String := ⟨titleChars s.data false⟩

/-- `str.replace("_", " ")` (both strings are single characters). -/
def underscoreToSpace (s : String) : String :=
  ⟨s.data.map (fun c => if c = '_' then ' ' else c)⟩

namespace BuildDocs

/-- One table-of-contents entry: the dictionary
`{"title": md.stem.replace("_", " ").title(), "path": str(rel)}`; the
relative path is kept as components and joined when the document is dumped. -/
structure TocEntry where
  title : String
  relPath : PyPath
deriving DecidableEq, Repr

/-- The entry built from a normalized markdown file in `generate_toc`. -/
def mkEntry (md : PyPath) : TocEntry :=
  ⟨strTitle (underscoreToSpace (pathStem md)), md.drop BUILD_DIR.length⟩

/-- `rel.parts[0]`: the first component of the BUILD_DIR-relative path. -/
def sectionKey (md : PyPath) : String := (md.drop BUILD_DIR.length).head?.getD ""

/-- `toc.setdefault(section, []).append(entry)`: append the entry to the
first group with this key, or add a new group at the end. -/
def tocInsert (acc : List (String × List TocEntry)) (sec : String) (e : TocEntry) :
    List (String × List TocEntry) :=
  match acc with
  | [] => [(sec, [e])]
  | (s, es) :: rest =>
    if s = sec then (s, es ++ [e]) :: rest else (s, es) :: tocInsert rest sec e

/-- The grouping loop of `generate_toc` over the sorted markdown files. -/
def buildToc (mds : List PyPath) : List (String × List TocEntry) :=
  (sortPaths mds).foldl (fun acc md => tocInsert acc (sectionKey md) (mkEntry md)) []

/-- The key order used by `yaml.safe_dump(..., sort_keys=True)` on the
grouped sections. -/
def keyRel (a b : String × List TocEntry) : Prop := strLE a.1 b.1

instance : DecidableRel keyRel := fun a b => (inferInstance : Decidable (strLE a.1 b.1))

/-- `generate_toc`, as a function of the markdown files found under
`BUILD_DIR`: group the sorted files by top-level section; the final sort by
key models `yaml.safe_dump(..., sort_keys=True)`. -/
def generate_toc (mds : List PyPath) : List (String × List TocEntry) :=
  (buildToc mds).insertionSort keyRel

/-- First-match lookup of a section's entry list (`toc[section]`). -/
def lookupSec : List (String × List TocEntry) → String → List TocEntry
  | [], _ => []
  | (s, es) :: rest, k => if s = k then es else lookupSec rest k

/-- Serialization of one entry (abstracts the YAML list-item rendering). -/
def dumpEntry (e : TocEntry) : String :=
  "- path: " ++ joinPath e.relPath ++ "\n  title: " ++ e.title ++ "\n"

/-- Deterministic serialization of the table of contents (abstracts
`yaml.safe_dump`, which renders a fixed function of the mapping). -/
def tocDump (toc : List (String × List TocEntry)) : String :=
  String.join (toc.map (fun sec => sec.1 ++ ":\n" ++ String.join (sec.2.map dumpEntry)))

/-- The paths present after `generate_docs`: the original entries plus the
performed writes (each path once). -/
def buildTreePaths (env : Env) (ws : List Write) : List PyPath :=
  ((env.fs.entries.map (·.path)) ++ ws.map (·.1)).dedup

/-- `BUILD_DIR.rglob("*.md")`: paths strictly below `BUILD_DIR` whose name
ends in `.md`. -/
def mdUnderBuild (paths : List PyPath) : List PyPath :=
  paths.filter (fun p =>
    BUILD_DIR.isPrefixOf p && decide (BUILD_DIR.length < p.length) &&
      strEndsWith (pathName p) ".md")

/-- `main`: `generate_docs`, then `generate_toc`, then `build_html`
(fatal when mkdocs is absent), then optionally `build_pdf` (fatal when pandoc
is absent). Returns the raised error (if any) and all writes performed. -/
def mainRun (env : Env) (buildPdf : Bool) : Option String × List Write :=
  match generate_docsRun env with
  | (some e, ws) => (some e, ws)
  | (none, ws) =>
    let tocContent := tocDump (generate_toc (mdUnderBuild (buildTreePaths env ws)))
    let ws2 := ws ++ [(TOC_PATH, tocContent)]
    if env.mkdocs then
      if buildPdf then
        if env.pandoc then
          (none,
            ws2 ++ [(PDF_PATH, env.pandocPdf (sortPaths (mdUnderBuild (buildTreePaths env ws2))))])
        else (some "pandoc is required to build the PDF", ws2)
      else (none, ws2)
    else (some "mkdocs is required to build HTML documentation", ws2)

end BuildDocs

/-- Whether a regular file (not a directory) sits at this path. -/
def fileAt (fs : FS) (p : PyPath) : Bool :=
  fs.entries.any (fun e => decide (e.path = p) && !e.isDir)

/-- Every gathered source is a regular file.  The conversion/copy steps of
`generate_docs` are only faithful to the script on regular files (on a
directory, `shutil.copy`/the converters raise instead). -/
def regularSources (fs : FS) : Prop :=
  ∀ p ∈ BuildDocs.gather_sources fs, fileAt fs p = true

instance (fs : FS) : Decidable (regularSources fs) := by
  unfold regularSources
  infer_instance

/-- The writes that target `TOC_PATH`. -/
def tocWrites (ws : List BuildDocs.Write) : List BuildDocs.Write :=
  ws.filter (fun w => decide (w.1 = BuildDocs.TOC_PATH))

/-- The writes of a source processed without error. -/
def okWrites (env : BuildDocs.Env) (src : PyPath) : List BuildDocs.Write :=
  match BuildDocs.processSource env src with
  | .ok w => w
  | .error _ => []

/-- The content that ends up at path `p` after a sequence of writes
(the last write wins). -/
def lastWriteAt (ws : List BuildDocs.Write) (p : PyPath) : Option String :=
  (ws.reverse.find? (fun w => decide (w.1 = p))).map (·.2)

/-- Fixture for C1's witness: one markdown file under each source directory. -/
def fsC1 : FS :=
  ⟨[⟨["articles", "a.md"], false, "A"⟩, ⟨["examples", "b.md"], false, "B"⟩]⟩

/-- Fixture for C5's counterexample: a directory named `old.md` and a regular
file under `articles`. -/
def fsC5 : FS :=
  ⟨[⟨["articles", "old.md"], true, ""⟩, ⟨["articles", "a.md"], false, "A"⟩]⟩

/-- Fixture for C10: a markdown file and a notebook with the same stem in the
same directory. -/
def fsC10 : FS :=
  ⟨[⟨["articles", "intro.md"], false, "MD-BYTES"⟩, ⟨["articles", "intro.ipynb"], false, "NB"⟩]⟩

/-- Environment for C10: pandoc absent (markdown is copied verbatim), jupyter
present. -/
def envC10 : BuildDocs.Env :=
  { fs := fsC10, pandoc := false, jupyter := true, mkdocs := true,
    pandocOut := fun _ => "", jupyterOut := fun _ => "NB-MARKDOWN", pandocPdf := fun _ => "" }

/-- Fixture for C2's witness: a single notebook source. -/
def fsC2 : FS := ⟨[⟨["examples", "nb.ipynb"], false, "NB"⟩]⟩

/-- Environment for C2's witness: jupyter absent. -/
def envC2 : BuildDocs.Env :=
  { fs := fsC2, pandoc := true, jupyter := false, mkdocs := true,
    pandocOut := fun _ => "", jupyterOut := fun _ => "", pandocPdf := fun _ => "" }

/-- Fixture for C3's witness: a single markdown source. -/
def fsC3 : FS := ⟨[⟨["articles", "a.md"], false, "ABYTES"⟩]⟩

/-- Environment for C3's witness: pandoc absent. -/
def envC3 : BuildDocs.Env :=
  { fs := fsC3, pandoc := false, jupyter := true, mkdocs := true,
    pandocOut := fun _ => "", jupyterOut := fun _ => "", pandocPdf := fun _ => "" }


section LexOrderLemmas

variable {α : Type} (lt : α → α → Bool)

theorem lexLT_irrefl (hIrr : ∀ a, lt a a = false) : ∀ l, lexLT lt l l = false
  | [] => rfl
  | a :: as => by simp [lexLT, hIrr a, lexLT_irrefl hIrr as]

theorem lexLT_conn (hConn : ∀ a b, lt a b = false → lt b a = false → a = b) :
    ∀ l1 l2, lexLT lt l1 l2 = false → lexLT lt l2 l1 = false → l1 = l2
  | [], [], _, _ => rfl
  | [], _ :: _, h1, _ => by simp [lexLT] at h1
  | _ :: _, [], _, h2 => by simp [lexLT] at h2
  | a :: as, b :: bs, h1, h2 => by
    cases hab : lt a b with
    | true => simp [lexLT, hab] at h1
    | false =>
      cases hba : lt b a with
      | true => simp [lexLT, hba] at h2
      | false =>
        obtain rfl := hConn a b hab hba
        have htail :=
          lexLT_conn hConn as bs (by simpa [lexLT, hab] using h1)
            (by simpa [lexLT, hab] using h2)
        rw [htail]

theorem lexLT_asymm (hAsymm : ∀ a b, lt a b = true → lt b a = false) :
    ∀ l1 l2, lexLT lt l1 l2 = true → lexLT lt l2 l1 = false
  | [], [], _ => rfl
  | [], _ :: _, _ => rfl
  | _ :: _, [], h => by simp [lexLT] at h
  | a :: as, b :: bs, h => by
    cases hab : lt a b with
    | true => simp [lexLT, hab, hAsymm a b hab]
    | false =>
      cases hba : lt b a with
      | true => simp [lexLT, hab, hba] at h
      | false =>
        have htail := lexLT_asymm hAsymm as bs (by simpa [lexLT, hab, hba] using h)
        simp [lexLT, hab, hba, htail]

theorem lexLT_trans (hTrans : ∀ a b c, lt a b = true → lt b c = true → lt a c = true)
    (hConn : ∀ a b, lt a b = false → lt b a = false → a = b) :
    ∀ l1 l2 l3, lexLT lt l1 l2 = true → lexLT lt l2 l3 = true → lexLT lt l1 l3 = true
  | _, l2, [], _, h2 => by cases l2 <;> simp [lexLT] at h2
  | [], _, _ :: _, _, _ => rfl
  | a :: as, l2, c :: cs, h1, h2 => by
    cases l2 with
    | nil => simp [lexLT] at h1
    | cons b bs =>
      cases hab : lt a b with
      | true =>
        cases hbc : lt b c with
        | true => simp [lexLT, hTrans a b c hab hbc]
        | false =>
          cases hcb : lt c b with
          | true => simp [lexLT, hbc, hcb] at h2
          | false =>
            obtain rfl := hConn b c hbc hcb
            simp [lexLT, hab]
      | false =>
        cases hba : lt b a with
        | true => simp [lexLT, hab, hba] at h1
        | false =>
          obtain rfl := hConn a b hab hba
          cases hbc : lt a c with
          | true => simp [lexLT, hbc]
          | false =>
            cases hcb : lt c a with
            | true => simp [lexLT, hbc, hcb] at h2
            | false =>
              obtain rfl := hConn a c hbc hcb
              have htail :=
                lexLT_trans hTrans hConn as bs cs
                  (by simpa [lexLT, hab] using h1) (by simpa [lexLT, hbc] using h2)
              simp [lexLT, hbc, htail]

end LexOrderLemmas

theorem charLTb_irrefl (a : Char) : charLTb a a = false := by simp [charLTb]

theorem charLTb_asymm (a b : Char) (h : charLTb a b = true) : charLTb b a = false := by
  simp [charLTb] at h ⊢
  exact le_of_lt h

theorem charLTb_trans (a b c : Char) (h1 : charLTb a b = true) (h2 : charLTb b c = true) :
    charLTb a c = true := by
  simp [charLTb] at h1 h2 ⊢
  exact lt_trans h1 h2

theorem charLTb_conn (a b : Char) (h1 : charLTb a b = false) (h2 : charLTb b a = false) :
    a = b := by
  simp [charLTb] at h1 h2
  exact le_antisymm h2 h1

theorem strLTb_irrefl (s : String) : strLTb s s = false :=
  lexLT_irrefl charLTb charLTb_irrefl s.data

theorem strLTb_asymm (s t : String) (h : strLTb s t = true) : strLTb t s = false :=
  lexLT_asymm charLTb charLTb_asymm s.data t.data h

theorem strLTb_trans (s t u : String) (h1 : strLTb s t = true) (h2 : strLTb t u = true) :
    strLTb s u = true :=
  lexLT_trans charLTb charLTb_trans charLTb_conn s.data t.data u.data h1 h2

theorem strLTb_conn (s t : String) (h1 : strLTb s t = false) (h2 : strLTb t s = false) :
    s = t := by
  cases s; cases t
  exact congrArg String.mk (lexLT_conn charLTb charLTb_conn _ _ h1 h2)

theorem pathLTb_asymm (p q : PyPath) (h : pathLTb p q = true) : pathLTb q p = false :=
  lexLT_asymm strLTb strLTb_asymm p q h

theorem pathLTb_trans (p q r : PyPath) (h1 : pathLTb p q = true) (h2 : pathLTb q r = true) :
    pathLTb p r = true :=
  lexLT_trans strLTb strLTb_trans strLTb_conn p q r h1 h2

theorem pathLTb_conn (p q : PyPath) (h1 : pathLTb p q = false) (h2 : pathLTb q p = false) :
    p = q :=
  lexLT_conn strLTb strLTb_conn p q h1 h2

instance : IsTotal PyPath pathLE := by
  constructor
  intro p q
  cases h : pathLTb q p with
  | false => exact Or.inl h
  | true => exact Or.inr (pathLTb_asymm q p h)

instance : IsTrans PyPath pathLE := by
  constructor
  intro p q r h1 h2
  cases h : pathLTb r p with
  | false => exact h
  | true =>
    exfalso
    cases hqr : pathLTb q r with
    | true => exact absurd (pathLTb_trans q r p hqr h) (by simpa [pathLE] using h1)
    | false =>
      cases pathLTb_conn q r hqr h2
      exact absurd h (by simpa [pathLE] using h1)

instance : IsAntisymm PyPath pathLE := by
  constructor
  intro p q h1 h2
  exact pathLTb_conn p q h2 h1

instance : IsTotal String strLE := by
  constructor
  intro s t
  cases h : strLTb t s with
  | false => exact Or.inl h
  | true => exact Or.inr (strLTb_asymm t s h)

instance : IsTrans String strLE := by
  constructor
  intro s t u h1 h2
  cases h : strLTb u s with
  | false => exact h
  | true =>
    exfalso
    cases htu : strLTb t u with
    | true => exact absurd (strLTb_trans t u s htu h) (by simpa [strLE] using h1)
    | false =>
      cases strLTb_conn t u htu h2
      exact absurd h (by simpa [strLE] using h1)

instance : IsAntisymm String strLE := by
  constructor
  intro s t h1 h2
  exact strLTb_conn s t h2 h1

/-- C1: the destination mapping of `generate_docs` is a pure function of the
source path (determinism), and for two gathered sources lying under different
source directories (distinct first components), the destinations differ
whenever the source-directory-relative paths differ. -/
theorem claim_C1 (fs : FS) (s1 s2 : PyPath)
    (_h1 : s1 ∈ BuildDocs.gather_sources fs) (_h2 : s2 ∈ BuildDocs.gather_sources fs) :
    BuildDocs.destOf s1 = BuildDocs.destOf s1 ∧
      (BuildDocs.srcRoot s1 ≠ BuildDocs.srcRoot s2 →
        BuildDocs.srcRel s1 ≠ BuildDocs.srcRel s2 →
          BuildDocs.destOf s1 ≠ BuildDocs.destOf s2) := by
  refine ⟨rfl, fun hroot _ hEq => hroot ?_⟩
  have := congrArg (fun l => l.get? 2) hEq
  simpa [BuildDocs.destOf, BuildDocs.BUILD_DIR] using this

/-- C1 witness: two concrete gathered sources under different source
directories with different relative paths map to different destinations. -/
theorem claim_C1_witness :
    BuildDocs.destOf ["articles", "a.md"] ≠ BuildDocs.destOf ["examples", "b.md"] :=
  (claim_C1 fsC1 ["articles", "a.md"] ["examples", "b.md"] (by decide) (by decide)).2
    (by decide) (by decide)

/-- C5 counterexample: `rglob("*")` also yields directories, so the scanner
yields a path (a directory named `old.md`) that is not a file; the claimed
"yields iff it is a file with a recognized extension" fails. -/
theorem claim_C5_counterexample :
    ["articles", "old.md"] ∈ BuildDocs.gather_sources fsC5 ∧
      fileAt fsC5 ["articles", "old.md"] = false := by decide

/-- C5 amended: the scanner yields a path iff some entry (file or directory)
has that path, the path lies strictly under one of the source directories,
and its lower-cased suffix is one of the recognized extensions. -/
theorem claim_C5 (fs : FS) (p : PyPath) :
    p ∈ BuildDocs.gather_sources fs ↔
      (∃ e ∈ fs.entries, e.path = p) ∧
        (∃ d ∈ BuildDocs.SOURCE_DIRS, d.isPrefixOf p = true ∧ d.length < p.length) ∧
        strLower (pathSuffix p) ∈ BuildDocs.exts := by
  simp only [BuildDocs.gather_sources, List.mem_flatMap, List.mem_filter, rglobAll,
    List.mem_map, List.mem_filter, Bool.and_eq_true, decide_eq_true_eq]
  constructor
  · rintro ⟨d, hd, ⟨e, ⟨he, hpre, hlen⟩, rfl⟩, hext⟩
    exact ⟨⟨e, he, rfl⟩, ⟨d, hd, hpre, hlen⟩, by simpa using hext⟩
  · rintro ⟨⟨e, he, rfl⟩, ⟨d, hd, hpre, hlen⟩, hext⟩
    exact ⟨d, hd, ⟨e, ⟨he, hpre, hlen⟩, rfl⟩, by simpa using hext⟩

/-- C10: in `fsC10`, the markdown file and the notebook are both gathered,
have different source-directory-relative paths, yet map to the same
destination; `generate_docs` writes both conversions to that destination in
discovery order, so the later source (the notebook) overwrites the earlier
one's output. -/
theorem claim_C10 :
    ["articles", "intro.md"] ∈ BuildDocs.gather_sources fsC10 ∧
      ["articles", "intro.ipynb"] ∈ BuildDocs.gather_sources fsC10 ∧
      BuildDocs.srcRel ["articles", "intro.md"] ≠ BuildDocs.srcRel ["articles", "intro.ipynb"] ∧
      BuildDocs.destOf ["articles", "intro.md"] = BuildDocs.destOf ["articles", "intro.ipynb"] ∧
      (BuildDocs.generate_docsRun envC10).2 =
        [(["docs", "build", "articles", "intro.md"], "MD-BYTES"),
          (["docs", "build", "articles", "intro.md"], "NB-MARKDOWN")] ∧
      lastWriteAt (BuildDocs.generate_docsRun envC10).2
          (BuildDocs.destOf ["articles", "intro.md"]) = some "NB-MARKDOWN" := by
  decide

/-- Once an error is raised, the `generate_docs` loop performs no further
work. -/
theorem docsFold_error (env : BuildDocs.Env) (e : String) (ws : List BuildDocs.Write) :
    ∀ l : List PyPath, l.foldl (BuildDocs.docsStep env) (some e, ws) = (some e, ws)
  | [] => rfl
  | _ :: l => docsFold_error env e ws l

/-- Every destination computed by `generate_docs` lies under `BUILD_DIR`. -/
theorem destOf_shape (src : PyPath) :
    ∃ t, BuildDocs.destOf src = "docs" :: "build" :: t :=
  ⟨BuildDocs.srcRoot src :: withSuffixMd (BuildDocs.srcRel src), rfl⟩

/-- A source whose lower-cased suffix is not `.ipynb` is processed without a
raised error. -/
theorem processSource_ok_of_ne_ipynb (env : BuildDocs.Env) (src : PyPath)
    (h : strLower (pathSuffix src) ≠ ".ipynb") :
    ∃ w, BuildDocs.processSource env src = .ok w := by
  by_cases hc : (BuildDocs.exts.take 2).contains (strLower (pathSuffix src)) = true
  · exact ⟨_, by rw [BuildDocs.processSource, if_pos hc]⟩
  · exact ⟨[], by rw [BuildDocs.processSource, if_neg hc, if_neg h]⟩

/-- A source is processed without a raised error whenever it is not a
notebook or jupyter is available. -/
theorem processSource_ok (env : BuildDocs.Env) (src : PyPath)
    (h : strLower (pathSuffix src) = ".ipynb" → env.jupyter = true) :
    ∃ w, BuildDocs.processSource env src = .ok w := by
  by_cases hnb : strLower (pathSuffix src) = ".ipynb"
  · by_cases hc : (BuildDocs.exts.take 2).contains (strLower (pathSuffix src)) = true
    · exact ⟨_, by rw [BuildDocs.processSource, if_pos hc]⟩
    · exact ⟨_, by rw [BuildDocs.processSource, if_neg hc, if_pos hnb, if_pos (h hnb)]⟩
  · exact processSource_ok_of_ne_ipynb env src hnb

/-- All writes of a processed source target paths under `BUILD_DIR`. -/
theorem processSource_shape (env : BuildDocs.Env) (src : PyPath) (w : List BuildDocs.Write)
    (h : BuildDocs.processSource env src = .ok w) :
    ∀ x ∈ w, ∃ t, x.1 = "docs" :: "build" :: t := by
  intro x hx
  by_cases hc : (BuildDocs.exts.take 2).contains (strLower (pathSuffix src)) = true
  · rw [BuildDocs.processSource, if_pos hc] at h
    obtain rfl := Except.ok.inj h
    rw [List.mem_singleton] at hx
    subst hx
    exact destOf_shape src
  · by_cases hnb : strLower (pathSuffix src) = ".ipynb"
    · by_cases hj : env.jupyter = true
      · rw [BuildDocs.processSource, if_neg hc, if_pos hnb, if_pos hj] at h
        obtain rfl := Except.ok.inj h
        rw [List.mem_singleton] at hx
        subst hx
        exact destOf_shape src
      · rw [BuildDocs.processSource, if_neg hc, if_pos hnb, if_neg hj] at h
        simp at h
    · rw [BuildDocs.processSource, if_neg hc, if_neg hnb] at h
      obtain rfl := Except.ok.inj h
      cases hx

/-- The `generate_docs` loop only accumulates writes under `BUILD_DIR`. -/
theorem docsFold_shape (env : BuildDocs.Env) :
    ∀ (l : List PyPath) (acc : Option String × List BuildDocs.Write),
      (∀ w ∈ acc.2, ∃ t, w.1 = "docs" :: "build" :: t) →
      ∀ w ∈ (l.foldl (BuildDocs.docsStep env) acc).2, ∃ t, w.1 = "docs" :: "build" :: t
  | [], _, hacc => hacc
  | p :: l, acc, hacc => by
    rw [List.foldl_cons]
    apply docsFold_shape env l
    obtain ⟨o, ws⟩ := acc
    cases o with
    | some e => exact hacc
    | none =>
      simp only [BuildDocs.docsStep]
      cases hps : BuildDocs.processSource env p with
      | error e => exact hacc
      | ok w =>
        intro x hx
        rcases List.mem_append.mp hx with hx' | hx'
        · exact hacc x hx'
        · exact processSource_shape env p w hps x hx'

/-- All writes performed by `generate_docs` lie under `BUILD_DIR`. -/
theorem generate_docsRun_shape (env : BuildDocs.Env) :
    ∀ w ∈ (BuildDocs.generate_docsRun env).2, ∃ t, w.1 = "docs" :: "build" :: t := by
  unfold BuildDocs.generate_docsRun
  have base := docsFold_shape env (BuildDocs.gather_sources env.fs) (none, []) (by simp)
  rcases hf : (BuildDocs.gather_sources env.fs).foldl (BuildDocs.docsStep env) (none, []) with
    ⟨o, ws⟩
  rw [hf] at base
  cases o with
  | some e => exact base
  | none =>
    intro w hw
    rcases List.mem_append.mp hw with hw' | hw'
    · exact base w hw'
    · split at hw'
      · rw [List.mem_singleton] at hw'
        subst hw'
        exact ⟨["index.md"], rfl⟩
      · cases hw'

/-- `generate_docs` never writes to `TOC_PATH`. -/
theorem generate_docsRun_noToc (env : BuildDocs.Env) :
    tocWrites (BuildDocs.generate_docsRun env).2 = [] := by
  rw [tocWrites, List.filter_eq_nil_iff]
  intro w hw
  obtain ⟨t, ht⟩ := generate_docsRun_shape env w hw
  simp [ht, BuildDocs.TOC_PATH]

/-- With jupyter absent, the `generate_docs` loop raises the nbconvert error
as soon as the source list contains a notebook. -/
theorem docsFold_nbError (env : BuildDocs.Env) (hj : env.jupyter = false) :
    ∀ (l : List PyPath) (ws : List BuildDocs.Write),
      (∃ p ∈ l, strLower (pathSuffix p) = ".ipynb") →
      (l.foldl (BuildDocs.docsStep env) (none, ws)).1 = some BuildDocs.nbErr
  | [], _, h => by simp at h
  | p :: l, ws, h => by
    by_cases hp : strLower (pathSuffix p) = ".ipynb"
    · have hc : ¬(BuildDocs.exts.take 2).contains (strLower (pathSuffix p)) = true := by
        rw [hp]; decide
      have hstep : BuildDocs.docsStep env (none, ws) p = (some BuildDocs.nbErr, ws) := by
        simp only [BuildDocs.docsStep]
        rw [BuildDocs.processSource, if_neg hc, if_pos hp, if_neg (by simp [hj])]
      rw [List.foldl_cons, hstep, docsFold_error]
    · obtain ⟨q, hq, hqnb⟩ := h
      rcases List.mem_cons.mp hq with rfl | hq'
      · exact absurd hqnb hp
      obtain ⟨w, hw⟩ := processSource_ok_of_ne_ipynb env p hp
      have hstep : BuildDocs.docsStep env (none, ws) p = (none, ws ++ w) := by
        simp [BuildDocs.docsStep, hw]
      rw [List.foldl_cons, hstep]
      exact docsFold_nbError env hj l (ws ++ w) ⟨q, hq', hqnb⟩

/-- C2: if jupyter is unavailable and some gathered source is a notebook
(and sources are regular files, so that no conversion fails earlier for a
different reason), the run raises the fatal nbconvert error and never writes
the table-of-contents file. -/
theorem claim_C2 (env : BuildDocs.Env) (buildPdf : Bool)
    (hj : env.jupyter = false)
    (_hreg : regularSources env.fs)
    (hnb : ∃ p ∈ BuildDocs.gather_sources env.fs, strLower (pathSuffix p) = ".ipynb") :
    (BuildDocs.mainRun env buildPdf).1 = some BuildDocs.nbErr ∧
      tocWrites (BuildDocs.mainRun env buildPdf).2 = [] := by
  have hfold := docsFold_nbError env hj (BuildDocs.gather_sources env.fs) [] hnb
  have hrun : (BuildDocs.generate_docsRun env).1 = some BuildDocs.nbErr := by
    unfold BuildDocs.generate_docsRun
    rcases hsplit : (BuildDocs.gather_sources env.fs).foldl (BuildDocs.docsStep env) (none, [])
      with ⟨o, ws⟩
    rw [hsplit] at hfold
    simp only at hfold
    subst hfold
    simp
  have hnotoc := generate_docsRun_noToc env
  rcases hgr : BuildDocs.generate_docsRun env with ⟨o, ws⟩
  rw [hgr] at hrun hnotoc
  simp only at hrun
  subst hrun
  constructor
  · simp [BuildDocs.mainRun, hgr]
  · simpa [BuildDocs.mainRun, hgr] using hnotoc

/-- C2 witness: a concrete run with jupyter absent and a notebook source. -/
theorem claim_C2_witness :
    (BuildDocs.mainRun envC2 true).1 = some BuildDocs.nbErr ∧
      tocWrites (BuildDocs.mainRun envC2 true).2 = [] :=
  claim_C2 envC2 true rfl (by decide) ⟨["examples", "nb.ipynb"], by decide, by decide⟩

/-- When every source in the list is processed without error, the
`generate_docs` loop raises nothing and appends each source's writes in
order. -/
theorem docsFold_ok (env : BuildDocs.Env) :
    ∀ (l : List PyPath) (ws : List BuildDocs.Write),
      (∀ p ∈ l, ∃ w, BuildDocs.processSource env p = .ok w) →
      l.foldl (BuildDocs.docsStep env) (none, ws) =
        (none, ws ++ l.flatMap (okWrites env))
  | [], ws, _ => by simp
  | p :: l, ws, h => by
    obtain ⟨w, hw⟩ := h p (List.mem_cons_self p l)
    have hstep : BuildDocs.docsStep env (none, ws) p = (none, ws ++ w) := by
      simp [BuildDocs.docsStep, hw]
    have hok : okWrites env p = w := by simp [okWrites, hw]
    rw [List.foldl_cons, hstep,
      docsFold_ok env l (ws ++ w) (fun q hq => h q (List.mem_cons_of_mem p hq))]
    simp [hok]

/-- C3: with pandoc unavailable (and no notebook source blocking the run:
jupyter available or no notebooks; sources regular files), `generate_docs`
raises no error and, for every gathered markdown/MDX source, performs a
verbatim copy of the source bytes to the computed destination. -/
theorem claim_C3 (env : BuildDocs.Env)
    (hp : env.pandoc = false)
    (_hreg : regularSources env.fs)
    (hnb : env.jupyter = true ∨
      ∀ p ∈ BuildDocs.gather_sources env.fs, strLower (pathSuffix p) ≠ ".ipynb") :
    (BuildDocs.generate_docsRun env).1 = none ∧
      ∀ src ∈ BuildDocs.gather_sources env.fs,
        (BuildDocs.exts.take 2).contains (strLower (pathSuffix src)) = true →
          (BuildDocs.destOf src, readFile env.fs src) ∈ (BuildDocs.generate_docsRun env).2 := by
  have hall : ∀ p ∈ BuildDocs.gather_sources env.fs,
      ∃ w, BuildDocs.processSource env p = .ok w := by
    intro p hmem
    apply processSource_ok
    intro hnb'
    rcases hnb with hj | hnone
    · exact hj
    · exact absurd hnb' (hnone p hmem)
  have hfold := docsFold_ok env (BuildDocs.gather_sources env.fs) [] hall
  constructor
  · unfold BuildDocs.generate_docsRun
    rw [hfold]
  · intro src hsrc hmd
    have hwrite : okWrites env src = [(BuildDocs.destOf src, readFile env.fs src)] := by
      rw [okWrites, BuildDocs.processSource, if_pos hmd, hp]
      simp
    have hmem : (BuildDocs.destOf src, readFile env.fs src) ∈
        (BuildDocs.gather_sources env.fs).flatMap (okWrites env) := by
      rw [List.mem_flatMap]
      exact ⟨src, hsrc, by rw [hwrite]; exact List.mem_singleton.mpr rfl⟩
    unfold BuildDocs.generate_docsRun
    rw [hfold]
    simpa using Or.inl hmem

/-- C3 witness: with pandoc absent, the concrete markdown source's bytes are
written unchanged to its computed destination and the run raises no error. -/
theorem claim_C3_witness :
    (BuildDocs.generate_docsRun envC3).1 = none ∧
      (BuildDocs.destOf ["articles", "a.md"], "ABYTES") ∈
        (BuildDocs.generate_docsRun envC3).2 := by
  have h := claim_C3 envC3 rfl (by decide) (Or.inl rfl)
  refine ⟨h.1, ?_⟩
  have h2 := h.2 ["articles", "a.md"] (by decide) (by decide)
  have : readFile envC3.fs ["articles", "a.md"] = "ABYTES" := by decide
  rwa [this] at h2

theorem lexLT_append_left {α : Type} (lt : α → α → Bool) (hIrr : ∀ a, lt a a = false) :
    ∀ (a l1 l2 : List α), lexLT lt (a ++ l1) (a ++ l2) = lexLT lt l1 l2
  | [], _, _ => rfl
  | x :: a, l1, l2 => by simp [lexLT, hIrr x, lexLT_append_left lt hIrr a l1 l2]

/-- The path order cancels a common leading directory. -/
theorem pathLE_append_left (d t1 t2 : PyPath) :
    pathLE (d ++ t1) (d ++ t2) ↔ pathLE t1 t2 := by
  unfold pathLE pathLTb
  rw [lexLT_append_left strLTb strLTb_irrefl d t2 t1]

instance : IsTotal (String × List BuildDocs.TocEntry) BuildDocs.keyRel :=
  ⟨fun a b => total_of strLE a.1 b.1⟩

instance : IsTrans (String × List BuildDocs.TocEntry) BuildDocs.keyRel :=
  ⟨fun _ _ _ h1 h2 => Trans.trans (r := strLE) (s := strLE) h1 h2⟩

/-- Sorting is insensitive to the order in which the walk yielded the
files. -/
theorem sortPaths_eq_of_perm {l1 l2 : List PyPath} (h : l1.Perm l2) :
    sortPaths l1 = sortPaths l2 :=
  List.eq_of_perm_of_sorted
    (((List.perm_insertionSort pathLE l1).trans h).trans
      (List.perm_insertionSort pathLE l2).symm)
    (List.sorted_insertionSort pathLE l1) (List.sorted_insertionSort pathLE l2)

theorem tocInsert_lookup (sec : String) (e : BuildDocs.TocEntry) (k : String) :
    ∀ acc, BuildDocs.lookupSec (BuildDocs.tocInsert acc sec e) k =
      BuildDocs.lookupSec acc k ++ (if sec = k then [e] else [])
  | [] => by
    by_cases hk : sec = k <;> simp [BuildDocs.tocInsert, BuildDocs.lookupSec, hk]
  | (s, es) :: rest => by
    by_cases hs : s = sec
    · subst hs
      by_cases hk : s = k
      · subst hk
        simp [BuildDocs.tocInsert, BuildDocs.lookupSec]
      · simp [BuildDocs.tocInsert, BuildDocs.lookupSec, hk]
    · by_cases hk : s = k
      · subst hk
        have hsec : ¬sec = s := fun h => hs h.symm
        simp [BuildDocs.tocInsert, BuildDocs.lookupSec, hs, hsec]
      · simp [BuildDocs.tocInsert, BuildDocs.lookupSec, hs, hk,
          tocInsert_lookup sec e k rest]

/-- The keys after `tocInsert`: unchanged if present, appended otherwise. -/
theorem tocInsert_keys (sec : String) (e : BuildDocs.TocEntry) :
    ∀ acc, (BuildDocs.tocInsert acc sec e).map Prod.fst =
      if sec ∈ acc.map Prod.fst then acc.map Prod.fst else acc.map Prod.fst ++ [sec]
  | [] => by simp [BuildDocs.tocInsert]
  | (s, es) :: rest => by
    by_cases hs : s = sec
    · subst hs
      simp [BuildDocs.tocInsert]
    · have hne : ¬sec = s := fun h => hs h.symm
      by_cases hmem : sec ∈ rest.map Prod.fst <;>
        simp [BuildDocs.tocInsert, hs, hne, hmem, tocInsert_keys sec e rest]

/-- The grouping fold of `generate_toc`, described by lookup: each key ends
up with the entries of exactly the files of that section, in list order. -/
theorem buildFold_lookup (k : String) :
    ∀ (mds : List PyPath) (acc : List (String × List BuildDocs.TocEntry)),
      BuildDocs.lookupSec
          (mds.foldl (fun acc md =>
            BuildDocs.tocInsert acc (BuildDocs.sectionKey md) (BuildDocs.mkEntry md)) acc) k =
        BuildDocs.lookupSec acc k ++
          (mds.filter (fun md => decide (BuildDocs.sectionKey md = k))).map BuildDocs.mkEntry
  | [], _ => by simp
  | md :: mds, acc => by
    rw [List.foldl_cons, buildFold_lookup k mds _, tocInsert_lookup, List.filter_cons]
    by_cases hk : BuildDocs.sectionKey md = k <;> simp [hk]

/-- The grouping fold keeps the key list duplicate-free. -/
theorem buildFold_keys_nodup :
    ∀ (mds : List PyPath) (acc : List (String × List BuildDocs.TocEntry)),
      (acc.map Prod.fst).Nodup →
      ((mds.foldl (fun acc md =>
          BuildDocs.tocInsert acc (BuildDocs.sectionKey md) (BuildDocs.mkEntry md)) acc).map
        Prod.fst).Nodup
  | [], _, h => h
  | md :: mds, acc, h => by
    rw [List.foldl_cons]
    apply buildFold_keys_nodup mds
    rw [tocInsert_keys]
    by_cases hmem : BuildDocs.sectionKey md ∈ acc.map Prod.fst
    · rw [if_pos hmem]
      exact h
    · rw [if_neg hmem]
      refine List.Nodup.append h (List.nodup_singleton _) ?_
      intro x hx hx2
      rw [List.mem_singleton] at hx2
      subst hx2
      exact hmem hx

/-- With duplicate-free keys, membership determines the lookup result. -/
theorem lookup_of_mem :
    ∀ (L : List (String × List BuildDocs.TocEntry)) (k : String)
      (es : List BuildDocs.TocEntry),
      (L.map Prod.fst).Nodup → (k, es) ∈ L → BuildDocs.lookupSec L k = es
  | [], _, _, _, hmem => by cases hmem
  | (s, es') :: rest, k, es, hnd, hmem => by
    rw [List.map_cons] at hnd
    have hnd' := List.nodup_cons.mp hnd
    rcases List.mem_cons.mp hmem with heq | hmem'
    · injection heq with h1 h2
      subst h1
      subst h2
      simp [BuildDocs.lookupSec]
    · by_cases hk : s = k
      · exfalso
        subst hk
        exact hnd'.1 (List.mem_map.mpr ⟨(s, es), hmem', rfl⟩)
      · simp only [BuildDocs.lookupSec, if_neg hk]
        exact lookup_of_mem rest k es hnd'.2 hmem' 

/-- A successful Boolean prefix test yields the remainder. -/
theorem isPrefixOf_exists :
    ∀ (d p : PyPath), d.isPrefixOf p = true → ∃ t, p = d ++ t
  | [], p, _ => ⟨p, rfl⟩
  | _ :: _, [], h => by simp [List.isPrefixOf] at h
  | a :: d, b :: p, h => by
    simp only [List.isPrefixOf, Bool.and_eq_true, beq_iff_eq] at h
    obtain ⟨rfl, h2⟩ := h
    obtain ⟨t, rfl⟩ := isPrefixOf_exists d p h2
    exact ⟨t, rfl⟩

/-- C4: over one unchanged set of normalized files (any two walk orders of
the same files), `generate_toc` dumps byte-identical text; its section keys
are in sorted order; and within each section the entries are sorted by their
build-relative file path. -/
theorem claim_C4 (l1 l2 : List PyPath)
    (hperm : l1.Perm l2)
    (hunder : ∀ p ∈ l1, BuildDocs.BUILD_DIR.isPrefixOf p = true) :
    BuildDocs.tocDump (BuildDocs.generate_toc l1) =
        BuildDocs.tocDump (BuildDocs.generate_toc l2) ∧
      ((BuildDocs.generate_toc l1).map Prod.fst).Sorted strLE ∧
      ∀ sec ∈ BuildDocs.generate_toc l1,
        (sec.2.map BuildDocs.TocEntry.relPath).Sorted pathLE := by
  refine ⟨?_, ?_, ?_⟩
  · have heq : BuildDocs.generate_toc l1 = BuildDocs.generate_toc l2 := by
      unfold BuildDocs.generate_toc BuildDocs.buildToc
      rw [sortPaths_eq_of_perm hperm]
    rw [heq]
  · have hsorted : List.Sorted BuildDocs.keyRel (BuildDocs.generate_toc l1) :=
      List.sorted_insertionSort BuildDocs.keyRel (BuildDocs.buildToc l1)
    exact List.pairwise_map.mpr (hsorted.imp (fun h => h))
  · intro sec hsec
    rw [BuildDocs.generate_toc, List.mem_insertionSort] at hsec
    have hnd : ((BuildDocs.buildToc l1).map Prod.fst).Nodup := by
      unfold BuildDocs.buildToc
      exact buildFold_keys_nodup _ [] (by simp)
    obtain ⟨k, es⟩ := sec
    have hlk := lookup_of_mem (BuildDocs.buildToc l1) k es hnd hsec
    have hfilter : es =
        ((sortPaths l1).filter (fun md => decide (BuildDocs.sectionKey md = k))).map
          BuildDocs.mkEntry := by
      rw [← hlk]
      unfold BuildDocs.buildToc
      rw [buildFold_lookup]
      simp [BuildDocs.lookupSec]
    have hps : List.Sorted pathLE
        ((sortPaths l1).filter (fun md => decide (BuildDocs.sectionKey md = k))) := by
      unfold sortPaths
      exact (List.sorted_insertionSort pathLE l1).filter _
    simp only [hfilter, List.map_map]
    refine List.pairwise_map.mpr (List.Pairwise.imp_of_mem ?_ hps)
    intro a b ha hb hab
    have ha1 : a ∈ l1 := by
      have := (List.mem_filter.mp ha).1
      rw [sortPaths, List.mem_insertionSort] at this
      exact this
    have hb1 : b ∈ l1 := by
      have := (List.mem_filter.mp hb).1
      rw [sortPaths, List.mem_insertionSort] at this
      exact this
    obtain ⟨t1, rfl⟩ := isPrefixOf_exists BuildDocs.BUILD_DIR a (hunder a ha1)
    obtain ⟨t2, rfl⟩ := isPrefixOf_exists BuildDocs.BUILD_DIR b (hunder b hb1)
    show pathLE ((BuildDocs.BUILD_DIR ++ t1).drop BuildDocs.BUILD_DIR.length)
      ((BuildDocs.BUILD_DIR ++ t2).drop BuildDocs.BUILD_DIR.length)
    rw [List.drop_left, List.drop_left]
    exact (pathLE_append_left BuildDocs.BUILD_DIR t1 t2).mp hab

/-- C4 witness: a concrete pair of walk orders of the same two files. -/
theorem claim_C4_witness :
    BuildDocs.tocDump (BuildDocs.generate_toc
        [["docs", "build", "examples", "b.md"], ["docs", "build", "articles", "a.md"]]) =
      BuildDocs.tocDump (BuildDocs.generate_toc
        [["docs", "build", "articles", "a.md"], ["docs", "build", "examples", "b.md"]]) ∧
    ((BuildDocs.generate_toc
        [["docs", "build", "examples", "b.md"], ["docs", "build", "articles", "a.md"]]).map
      Prod.fst).Sorted strLE := by
  have h := claim_C4
    [["docs", "build", "examples", "b.md"], ["docs", "build", "articles", "a.md"]]
    [["docs", "build", "articles", "a.md"], ["docs", "build", "examples", "b.md"]]
    (by decide) (by decide)
  exact ⟨h.1, h.2.1⟩

theorem dropWhile_idem (p : Char → Bool) :
    ∀ x : List Char, (x.dropWhile p).dropWhile p = x.dropWhile p
  | [] => rfl
  | c :: x => by
    by_cases hc : p c <;> simp [List.dropWhile_cons, hc, dropWhile_idem p x]

/-- `rstrip` is idempotent. -/
theorem rstripL_idem (l : List Char) : rstripL (rstripL l) = rstripL l := by
  simp [rstripL, dropWhile_idem]

/-- Stripping after right-stripping strips the original line: the prefix
matching that decides dropping is insensitive to the right-strip. -/
theorem stripL_rstripL (l : List Char) : stripL (rstripL l) = stripL l := by
  simp [stripL, rstripL_idem]

/-- Right-stripping keeps only original characters. -/
theorem noBreak_rstripL {l : List Char} (h : noBreak l) : noBreak (rstripL l) := by
  intro c hc
  apply h
  rw [rstripL, List.mem_reverse] at hc
  exact List.mem_reverse.mp ((List.dropWhile_sublist _).subset hc)

theorem RepoPdf.isBoilerplate_rstripL (l : List Char) :
    RepoPdf.isBoilerplate (rstripL l) = RepoPdf.isBoilerplate l := by
  rw [RepoPdf.isBoilerplate, RepoPdf.isBoilerplate, stripL_rstripL]

/-- The line loop written as a filter followed by a map. -/
theorem RepoPdf.cleanLines_eq :
    ∀ ls : List (List Char),
      RepoPdf.cleanLines ls =
        (ls.filter (fun l => !RepoPdf.isBoilerplate l)).map rstripL
  | [] => rfl
  | l :: ls => by
    by_cases hb : RepoPdf.isBoilerplate l <;>
      simp [RepoPdf.cleanLines, List.filter_cons, hb, RepoPdf.cleanLines_eq ls]

/-- Cleaning already-cleaned lines changes nothing. -/
theorem RepoPdf.cleanLines_idem :
    ∀ ls : List (List Char), RepoPdf.cleanLines (RepoPdf.cleanLines ls) = RepoPdf.cleanLines ls
  | [] => rfl
  | l :: ls => by
    by_cases hb : RepoPdf.isBoilerplate l
    · simp [RepoPdf.cleanLines, hb, RepoPdf.cleanLines_idem ls]
    · simp [RepoPdf.cleanLines, hb, RepoPdf.isBoilerplate_rstripL, rstripL_idem,
        RepoPdf.cleanLines_idem ls]

/-- The lines kept by the loop are free of line-boundary characters whenever
the input lines are. -/
theorem RepoPdf.cleanLines_noBreak :
    ∀ ls : List (List Char), (∀ l ∈ ls, noBreak l) →
      ∀ l ∈ RepoPdf.cleanLines ls, noBreak l
  | [], _, l, hl => by cases hl
  | l0 :: ls, h, l, hl => by
    have htail := RepoPdf.cleanLines_noBreak ls (fun x hx => h x (List.mem_cons_of_mem _ hx))
    by_cases hb : RepoPdf.isBoilerplate l0
    · rw [RepoPdf.cleanLines, if_pos hb] at hl
      exact htail l hl
    · rw [RepoPdf.cleanLines, if_neg hb] at hl
      rcases List.mem_cons.mp hl with rfl | hl'
      · exact noBreak_rstripL (h l0 (List.mem_cons_self _ _))
      · exact htail l hl'

theorem splitlinesAux_cons_nobreak {c : Char} (rest acc : List Char)
    (hb : isLineBreakChar c = false) :
    splitlinesAux (c :: rest) acc = splitlinesAux rest (c :: acc) := by
  rw [splitlinesAux.eq_def]
  dsimp only
  rw [if_neg (by simp [hb])]

theorem splitlinesAux_cons_break {c : Char} (rest acc : List Char)
    (hb : isLineBreakChar c = true) (hr : c ≠ '\r') :
    splitlinesAux (c :: rest) acc = acc.reverse :: splitlinesAux rest [] := by
  rw [splitlinesAux.eq_def]
  dsimp only
  rw [if_pos hb, if_neg hr]

theorem splitlinesAux_cr_nil (acc : List Char) :
    splitlinesAux ['\r'] acc = [acc.reverse] := by
  rw [splitlinesAux.eq_def]
  dsimp only
  rw [if_pos (by decide), if_pos rfl]

theorem splitlinesAux_cr_lf (rest2 acc : List Char) :
    splitlinesAux ('\r' :: '\n' :: rest2) acc = acc.reverse :: splitlinesAux rest2 [] := by
  rw [splitlinesAux.eq_def]
  dsimp only
  rw [if_pos (by decide), if_pos rfl, if_pos rfl]

theorem splitlinesAux_cr_other {d : Char} (rest2 acc : List Char) (hd : d ≠ '\n') :
    splitlinesAux ('\r' :: d :: rest2) acc =
      acc.reverse :: splitlinesAux (d :: rest2) [] := by
  rw [splitlinesAux.eq_def]
  dsimp only
  rw [if_pos (by decide), if_pos rfl, if_neg hd]

/-- Every line produced by `splitlinesAux` is free of line-boundary
characters (the accumulator holds the pending line reversed). -/
theorem splitlinesAux_noBreak :
    ∀ (cs acc : List Char), (∀ c ∈ acc, isLineBreakChar c = false) →
      ∀ l ∈ splitlinesAux cs acc, noBreak l
  | [], acc, hacc => by
    by_cases h : acc = []
    · simp [splitlinesAux, h]
    · simp only [splitlinesAux, if_neg h]
      intro l hl
      rw [List.mem_singleton] at hl
      subst hl
      intro c hc
      exact hacc c (List.mem_reverse.mp hc)
  | c :: rest, acc, hacc => by
    by_cases hb : isLineBreakChar c
    · by_cases hr : c = '\r'
      · subst hr
        cases rest with
        | nil =>
          rw [splitlinesAux_cr_nil]
          intro l hl
          rw [List.mem_singleton] at hl
          subst hl
          intro ch hch
          exact hacc ch (List.mem_reverse.mp hch)
        | cons d rest2 =>
          by_cases hd : d = '\n'
          · subst hd
            rw [splitlinesAux_cr_lf]
            intro l hl
            rcases List.mem_cons.mp hl with rfl | hl'
            · intro ch hch
              exact hacc ch (List.mem_reverse.mp hch)
            · exact splitlinesAux_noBreak rest2 [] (by simp) l hl'
          · rw [splitlinesAux_cr_other rest2 acc hd]
            intro l hl
            rcases List.mem_cons.mp hl with rfl | hl'
            · intro ch hch
              exact hacc ch (List.mem_reverse.mp hch)
            · exact splitlinesAux_noBreak (d :: rest2) [] (by simp) l hl'
      · rw [splitlinesAux_cons_break rest acc hb hr]
        intro l hl
        rcases List.mem_cons.mp hl with rfl | hl'
        · intro ch hch
          exact hacc ch (List.mem_reverse.mp hch)
        · exact splitlinesAux_noBreak rest [] (by simp) l hl'
    · rw [splitlinesAux_cons_nobreak rest acc (eq_false_of_ne_true hb)]
      apply splitlinesAux_noBreak rest (c :: acc)
      intro x hx
      rcases List.mem_cons.mp hx with rfl | hx'
      · exact eq_false_of_ne_true hb
      · exact hacc x hx'
termination_by cs _ _ => cs.length
decreasing_by all_goals (simp only [invImage, List.length_cons]; omega)

/-- Every line of `splitlinesL` is free of line-boundary characters. -/
theorem splitlinesL_noBreak (cs : List Char) : ∀ l ∈ splitlinesL cs, noBreak l :=
  splitlinesAux_noBreak cs [] (by simp)

/-- `splitlinesAux` consumes an initial boundary-free chunk into the
accumulator. -/
theorem splitlinesAux_consume :
    ∀ (l cs acc : List Char), noBreak l →
      splitlinesAux (l ++ cs) acc = splitlinesAux cs (l.reverse ++ acc)
  | [], _, _, _ => rfl
  | c :: l, cs, acc, h => by
    have hc : isLineBreakChar c = false := h c (List.mem_cons_self _ _)
    rw [List.cons_append, splitlinesAux_cons_nobreak (l ++ cs) acc hc]
    rw [splitlinesAux_consume l cs (c :: acc) (fun x hx => h x (List.mem_cons_of_mem _ hx))]
    simp

/-- Splitting a single boundary-free line. -/
theorem splitlinesL_noBreak_eq {l : List Char} (h : noBreak l) :
    splitlinesL l = if l = [] then [] else [l] := by
  have hcons := splitlinesAux_consume l [] [] h
  rw [List.append_nil] at hcons
  rw [splitlinesL, hcons, List.append_nil, splitlinesAux.eq_def]
  by_cases hl : l = []
  · subst hl
    simp
  · have hrev : l.reverse ≠ [] := by simpa using hl
    rw [if_neg hl]
    dsimp only
    rw [if_neg hrev, List.reverse_reverse]

theorem joinNL_single (l : List Char) : RepoPdf.joinNL [l] = l := by
  rw [RepoPdf.joinNL.eq_def]
  dsimp only
  rw [List.append_nil]

theorem joinNL_cons (l : List Char) (L : List (List Char)) (h : L ≠ []) :
    RepoPdf.joinNL (l :: L) = l ++ '\n' :: RepoPdf.joinNL L := by
  rw [RepoPdf.joinNL.eq_def]
  cases L with
  | nil => exact absurd rfl h
  | cons a as => rfl

/-- Splitting the joined cleaned lines recovers them, except that a final
empty line is dropped. -/
theorem splitlinesL_joinNL :
    ∀ L : List (List Char), (∀ l ∈ L, noBreak l) →
      splitlinesL (RepoPdf.joinNL L) = dropLastEmpty L
  | [], _ => rfl
  | [l], h => by
    have hl := h l (List.mem_cons_self _ _)
    rw [joinNL_single, splitlinesL_noBreak_eq hl]
    by_cases hl0 : l = [] <;> simp [dropLastEmpty, hl0]
  | l :: l2 :: L, h => by
    have hl := h l (List.mem_cons_self _ _)
    have htail : ∀ x ∈ l2 :: L, noBreak x := fun x hx => h x (List.mem_cons_of_mem _ hx)
    rw [joinNL_cons l (l2 :: L) (by simp), splitlinesL, splitlinesAux_consume l _ [] hl,
      List.append_nil, splitlinesAux_cons_break _ _ (by decide) (by decide),
      List.reverse_reverse]
    have ih := splitlinesL_joinNL (l2 :: L) htail
    rw [splitlinesL] at ih
    rw [ih]
    rw [dropLastEmpty, dropLastEmpty, List.getLast?_cons_cons]
    by_cases hLast : (l2 :: L).getLast? = some []
    · rw [if_pos hLast, if_pos hLast]
      rfl
    · rw [if_neg hLast, if_neg hLast]

/-- When the last of at least two lines is empty, the joined text ends with a
newline. -/
theorem joinNL_getLast_nl :
    ∀ L : List (List Char), L.getLast? = some [] → 2 ≤ L.length →
      (RepoPdf.joinNL L).getLast? = some '\n'
  | [], h, _ => by simp at h
  | [l], _, h2 => by simp at h2
  | l :: l2 :: L, h, _ => by
    rw [joinNL_cons l (l2 :: L) (by simp), List.getLast?_append_cons]
    rw [List.getLast?_cons_cons] at h
    cases L with
    | nil =>
      rw [List.getLast?_singleton] at h
      obtain rfl := Option.some.inj h
      rfl
    | cons l3 L' =>
      have ih := joinNL_getLast_nl (l2 :: l3 :: L') h (by simp)
      have hne : RepoPdf.joinNL (l2 :: l3 :: L') ≠ [] := by
        intro hnil
        rw [hnil] at ih
        simp at ih
      cases hx : RepoPdf.joinNL (l2 :: l3 :: L') with
      | nil => exact absurd hx hne
      | cons y ys =>
        rw [List.getLast?_cons_cons]
        rw [hx] at ih
        exact ih

/-- Joining cleaned lines, re-splitting, and cleaning again is the identity
provided the joined text does not end in a newline. -/
theorem cleanLines_joinNL_idem (ls : List (List Char))
    (hnb : ∀ l ∈ ls, noBreak l)
    (h : (RepoPdf.joinNL (RepoPdf.cleanLines ls)).getLast? ≠ some '\n') :
    RepoPdf.joinNL
        (RepoPdf.cleanLines (splitlinesL (RepoPdf.joinNL (RepoPdf.cleanLines ls)))) =
      RepoPdf.joinNL (RepoPdf.cleanLines ls) := by
  have hnbL : ∀ l ∈ RepoPdf.cleanLines ls, noBreak l := RepoPdf.cleanLines_noBreak ls hnb
  rw [splitlinesL_joinNL _ hnbL]
  by_cases hLast : (RepoPdf.cleanLines ls).getLast? = some []
  · rcases hL : RepoPdf.cleanLines ls with _ | ⟨l, L'⟩
    · rw [hL] at hLast
      simp at hLast
    · rcases L' with _ | ⟨l2, L''⟩
      · rw [hL, List.getLast?_singleton] at hLast
        obtain rfl := Option.some.inj hLast
        decide
      · exfalso
        apply h
        rw [hL] at hLast ⊢
        exact joinNL_getLast_nl (l :: l2 :: L'') hLast (by simp)
  · rw [dropLastEmpty, if_neg hLast, RepoPdf.cleanLines_idem]

/-- C6 counterexample: `clean_text` is not idempotent.  On `"a\n\n"` the
kept trailing empty line makes the cleaned text `"a\n"`, and cleaning again
yields `"a"`. -/
theorem claim_C6_counterexample :
    RepoPdf.clean_text (RepoPdf.clean_text "a\n\n") ≠ RepoPdf.clean_text "a\n\n" := by
  decide

/-- C6 amended: `clean_text` is idempotent on every input whose cleaned text
does not end in a newline (a trailing newline — a kept trailing empty line —
is dropped by the second application, as the counterexample shows). -/
theorem claim_C6 (t : String)
    (h : (RepoPdf.clean_text t).data.getLast? ≠ some '\n') :
    RepoPdf.clean_text (RepoPdf.clean_text t) = RepoPdf.clean_text t :=
  congrArg String.mk
    (cleanLines_joinNL_idem (splitlinesL t.data) (splitlinesL_noBreak t.data) h)

/-- C6 witness: a concrete input whose cleaned text has no trailing newline. -/
theorem claim_C6_witness :
    RepoPdf.clean_text (RepoPdf.clean_text "a\nb") = RepoPdf.clean_text "a\nb" :=
  claim_C6 "a\nb" (by decide)

/-- C7: `clean_text` removes exactly the lines whose stripped content matches
a configured boilerplate pattern, right-strips every retained line (the
filter-map characterization `clean_text_spec`), and maps empty input to
empty output. -/
theorem claim_C7 :
    (∀ t : String, RepoPdf.clean_text t = RepoPdf.clean_text_spec t) ∧
      RepoPdf.clean_text "" = "" :=
  ⟨fun t => congrArg String.mk (congrArg RepoPdf.joinNL (RepoPdf.cleanLines_eq (splitlinesL t.data))), rfl⟩

/-- The aggregation loop when every file converts: all sections are
appended, no diagnostic is printed. -/
theorem pdfFold_ok (env : RepoPdf.PEnv) :
    ∀ (l : List PyPath) (s0 d0 : List String),
      (∀ p ∈ l, (RepoPdf.convertOf env p).isOk = true) →
      l.foldl (RepoPdf.pdfStep env) (s0, d0) =
        (s0 ++ l.map (RepoPdf.sectionFor env), d0)
  | [], s0, d0, _ => by simp
  | p :: l, s0, d0, h => by
    have hp := h p (List.mem_cons_self _ _)
    cases hc : RepoPdf.convertOf env p with
    | error e => rw [hc] at hp; cases hp
    | ok c =>
      have hstep : RepoPdf.pdfStep env (s0, d0) p =
          (s0 ++ [RepoPdf.sectionFor env p], d0) := by
        simp [RepoPdf.pdfStep, RepoPdf.sectionFor, hc, Except.toOption]
      rw [List.foldl_cons, hstep,
        pdfFold_ok env l _ d0 (fun q hq => h q (List.mem_cons_of_mem _ hq))]
      simp

/-- The aggregation loop when exactly the occurrences of `b` fail (with
error `e`): the other files' sections are appended in order and each
occurrence of `b` leaves one diagnostic. -/
theorem pdfFold_partition (env : RepoPdf.PEnv) (b : PyPath) (e : String)
    (hb : RepoPdf.convertOf env b = .error e) :
    ∀ (l : List PyPath) (s0 d0 : List String),
      (∀ p ∈ l, p = b ∨ (RepoPdf.convertOf env p).isOk = true) →
      l.foldl (RepoPdf.pdfStep env) (s0, d0) =
        (s0 ++ (l.filter (fun p => decide (p ≠ b))).map (RepoPdf.sectionFor env),
          d0 ++ (l.filter (fun p => decide (p = b))).map (fun _ => RepoPdf.skipMsg b e))
  | [], s0, d0, _ => by simp
  | p :: l, s0, d0, h => by
    have htail := fun q hq => h q (List.mem_cons_of_mem _ hq)
    by_cases hp : p = b
    · subst hp
      have hstep : RepoPdf.pdfStep env (s0, d0) p =
          (s0, d0 ++ [RepoPdf.skipMsg p e]) := by
        simp [RepoPdf.pdfStep, hb]
      rw [List.foldl_cons, hstep, pdfFold_partition env p e hb l s0 _ htail]
      simp
    · have hok : (RepoPdf.convertOf env p).isOk = true :=
        (h p (List.mem_cons_self _ _)).resolve_left hp
      cases hc : RepoPdf.convertOf env p with
      | error e2 => rw [hc] at hok; cases hok
      | ok c =>
        have hstep : RepoPdf.pdfStep env (s0, d0) p =
            (s0 ++ [RepoPdf.sectionFor env p], d0) := by
          simp [RepoPdf.pdfStep, RepoPdf.sectionFor, hc, Except.toOption]
        rw [List.foldl_cons, hstep, pdfFold_partition env b e hb l _ d0 htail]
        simp [hp]

/-- A list containing `b` exactly once filters to the singleton `[b]`. -/
theorem filter_eq_singleton_of_count_one :
    ∀ (l : List PyPath) (b : PyPath), l.count b = 1 →
      l.filter (fun p => decide (p = b)) = [b]
  | [], b, h => by simp at h
  | p :: l, b, h => by
    by_cases hp : p = b
    · subst hp
      rw [List.count_cons_self] at h
      have h0 : l.count p = 0 := by omega
      have hnot : p ∉ l := by
        intro hmem
        rw [List.count_eq_zero] at h0
        exact h0 hmem
      rw [List.filter_cons_of_pos (by simp)]
      rw [show (l.filter (fun q => decide (q = p))) = [] from
        List.filter_eq_nil_iff.mpr (fun q hq => by
          simp only [decide_eq_true_eq, Bool.not_eq_true]
          intro hqb
          exact hnot (hqb ▸ hq))]
    · rw [List.count_cons_of_ne (fun hbp => hp hbp.symm)] at h
      rw [List.filter_cons_of_neg (by simp [hp])]
      exact filter_eq_singleton_of_count_one l b h

/-- C8: when conversion raises on exactly one discovered file, the run still
returns (no exception escapes the loop), the aggregated output is the
concatenation of the sections of every other file in order, and exactly one
diagnostic naming the skipped file is printed. -/
theorem claim_C8 (env : RepoPdf.PEnv) (b : PyPath) (e : String)
    (hcount : (RepoPdf.buildPaths env.fs).count b = 1)
    (hfail : RepoPdf.convertOf env b = .error e)
    (hok : ∀ p ∈ RepoPdf.buildPaths env.fs, p ≠ b →
      (RepoPdf.convertOf env p).isOk = true) :
    RepoPdf.build_markdown env =
      (String.intercalate "\n"
        (((RepoPdf.buildPaths env.fs).filter (fun p => decide (p ≠ b))).map
          (RepoPdf.sectionFor env)),
        [RepoPdf.skipMsg b e]) := by
  have hall : ∀ p ∈ RepoPdf.buildPaths env.fs,
      p = b ∨ (RepoPdf.convertOf env p).isOk = true := by
    intro p hp
    by_cases hpb : p = b
    · exact Or.inl hpb
    · exact Or.inr (hok p hp hpb)
  rw [RepoPdf.build_markdown, pdfFold_partition env b e hfail _ [] [] hall,
    filter_eq_singleton_of_count_one _ b hcount]
  simp

/-- C8 witness: of three concrete discovered files, `bad.md` raises; the
other two files' sections are aggregated and one diagnostic names `bad.md`. -/
theorem claim_C8_witness :
    RepoPdf.build_markdown envC8 =
      (String.intercalate "\n"
        (((RepoPdf.buildPaths envC8.fs).filter (fun p => decide (p ≠ ["bad.md"]))).map
          (RepoPdf.sectionFor envC8)),
        [RepoPdf.skipMsg ["bad.md"] "boom"]) :=
  claim_C8 envC8 ["bad.md"] "boom" (by decide) (by rfl) (by decide)

theorem pathLE_total (p q : PyPath) : pathLE p q ∨ pathLE q p := total_of pathLE p q

instance : IsTotal PyPath RepoPdf.compositeLE := by
  constructor
  intro p q
  rcases Nat.lt_trichotomy (RepoPdf.kindKey p) (RepoPdf.kindKey q) with hlt | heq | hgt
  · exact Or.inl (Or.inl hlt)
  · rcases pathLE_total p q with hle | hle
    · exact Or.inl (Or.inr ⟨heq, hle⟩)
    · exact Or.inr (Or.inr ⟨heq.symm, hle⟩)
  · exact Or.inr (Or.inl hgt)

instance : IsTrans PyPath RepoPdf.compositeLE := by
  constructor
  rintro p q r (h1 | ⟨he1, hl1⟩) (h2 | ⟨he2, hl2⟩)
  · exact Or.inl (Nat.lt_trans h1 h2)
  · exact Or.inl (he2 ▸ h1)
  · exact Or.inl (he1 ▸ h2)
  · exact Or.inr ⟨he1.trans he2, Trans.trans (r := pathLE) (s := pathLE) hl1 hl2⟩

instance : IsAntisymm PyPath RepoPdf.compositeLE := by
  constructor
  rintro p q (h1 | ⟨he1, hl1⟩) (h2 | ⟨he2, hl2⟩)
  · exact absurd h2 (Nat.lt_asymm h1)
  · exact absurd h1 (he2 ▸ Nat.lt_irrefl _)
  · exact absurd h2 (he1 ▸ Nat.lt_irrefl _)
  · exact antisymm (r := pathLE) hl1 hl2

/-- Splitting a walk into two disjoint filters is a permutation of the
combined filter. -/
theorem filter_append_perm_or (p q : FsEntry → Bool)
    (hdisj : ∀ e : FsEntry, ¬(p e = true ∧ q e = true)) :
    ∀ l : List FsEntry,
      (l.filter p ++ l.filter q).Perm (l.filter (fun e => p e || q e))
  | [] => by simp
  | e :: l => by
    rcases hp : p e with hpf | hpt
    · rcases hq : q e with hqf | hqt
      · simpa [List.filter_cons, hp, hq] using filter_append_perm_or p q hdisj l
      · simp only [List.filter_cons, hp, hq, Bool.false_or, if_true, if_false,
          Bool.false_eq_true]
        exact List.perm_middle.trans ((filter_append_perm_or p q hdisj l).cons e)
    · have hqf : q e = false := by
        rcases hq : q e with h | h
        · rfl
        · exact absurd ⟨hp, hq⟩ (hdisj e)
      simp only [List.filter_cons, hp, hqf, Bool.true_or, if_true, if_false,
        Bool.false_eq_true]
      exact (filter_append_perm_or p q hdisj l).cons e

/-- A name cannot end in both `.ipynb` and `.md`. -/
theorem not_ipynb_and_md (s : String) :
    ¬(strEndsWith s ".ipynb" = true ∧ strEndsWith s ".md" = true) := by
  rintro ⟨h1, h2⟩
  rw [strEndsWith, List.isSuffixOf_iff_suffix] at h1 h2
  obtain ⟨t1, ht1⟩ := h1
  obtain ⟨t2, ht2⟩ := h2
  have e1 : s.data.getLast? = some 'b' := by
    rw [← ht1, List.getLast?_append_of_ne_nil _ (by decide)]
    decide
  have e2 : s.data.getLast? = some 'd' := by
    rw [← ht2, List.getLast?_append_of_ne_nil _ (by decide)]
    decide
  rw [e1] at e2
  cases e2

theorem mem_globNb {fs : FS} {a : PyPath} (h : a ∈ RepoPdf.globNb fs) :
    strEndsWith (pathName a) ".ipynb" = true := by
  rw [RepoPdf.globNb] at h
  obtain ⟨e, he, rfl⟩ := List.mem_map.mp h
  exact (List.mem_filter.mp he).2

theorem mem_globMd {fs : FS} {a : PyPath} (h : a ∈ RepoPdf.globMd fs) :
    strEndsWith (pathName a) ".md" = true := by
  rw [RepoPdf.globMd] at h
  obtain ⟨e, he, rfl⟩ := List.mem_map.mp h
  exact (List.mem_filter.mp he).2

theorem kindKey_nb {a : PyPath} (h : strEndsWith (pathName a) ".ipynb" = true) :
    RepoPdf.kindKey a = 0 := by
  rw [RepoPdf.kindKey, if_pos h]

theorem kindKey_md {a : PyPath} (h : strEndsWith (pathName a) ".md" = true) :
    RepoPdf.kindKey a = 1 := by
  rw [RepoPdf.kindKey, if_neg]
  intro hnb
  exact not_ipynb_and_md (pathName a) ⟨hnb, h⟩

/-- The discovery order of `build_markdown` is sorted in the composite
order: notebooks (sorted by path) before markdown files (sorted by path). -/
theorem buildPaths_sorted (fs : FS) :
    List.Sorted RepoPdf.compositeLE (RepoPdf.buildPaths fs) := by
  rw [RepoPdf.buildPaths, List.Sorted, List.pairwise_append]
  refine ⟨?_, ?_, ?_⟩
  · refine List.Pairwise.imp_of_mem ?_ (List.sorted_insertionSort pathLE (RepoPdf.globNb fs))
    intro a b ha hb hab
    rw [sortPaths, List.mem_insertionSort] at ha hb
    exact Or.inr ⟨by rw [kindKey_nb (mem_globNb ha), kindKey_nb (mem_globNb hb)], hab⟩
  · refine List.Pairwise.imp_of_mem ?_ (List.sorted_insertionSort pathLE (RepoPdf.globMd fs))
    intro a b ha hb hab
    rw [sortPaths, List.mem_insertionSort] at ha hb
    exact Or.inr ⟨by rw [kindKey_md (mem_globMd ha), kindKey_md (mem_globMd hb)], hab⟩
  · intro a ha b hb
    rw [sortPaths, List.mem_insertionSort] at ha hb
    refine Or.inl ?_
    rw [kindKey_nb (mem_globNb ha), kindKey_md (mem_globMd hb)]
    exact Nat.zero_lt_one

/-- The discovery order is a permutation of all discovered files. -/
theorem buildPaths_perm (fs : FS) :
    (RepoPdf.buildPaths fs).Perm (RepoPdf.allDocFiles fs) := by
  have h1 : (RepoPdf.buildPaths fs).Perm (RepoPdf.globNb fs ++ RepoPdf.globMd fs) :=
    List.Perm.append (List.perm_insertionSort pathLE _) (List.perm_insertionSort pathLE _)
  refine h1.trans ?_
  rw [RepoPdf.globNb, RepoPdf.globMd, ← List.map_append, RepoPdf.allDocFiles]
  exact (filter_append_perm_or _ _
    (fun e => not_ipynb_and_md (pathName e.path)) fs.entries).map (·.path)

/-- C9: the aggregation processes the sorted notebooks followed by the
sorted markdown files, which equals sorting all discovered files by the
composite key (kind: notebooks first, then lexicographic path); and, when
every conversion succeeds, the aggregated document is the concatenation of
the per-file sections (heading + cleaned body) in exactly that order. -/
theorem claim_C9 (env : RepoPdf.PEnv)
    (hok : ∀ p ∈ RepoPdf.buildPaths env.fs, (RepoPdf.convertOf env p).isOk = true) :
    RepoPdf.buildPaths env.fs =
        (RepoPdf.allDocFiles env.fs).insertionSort RepoPdf.compositeLE ∧
      (RepoPdf.build_markdown env).1 =
        String.intercalate "\n"
          ((RepoPdf.buildPaths env.fs).map (RepoPdf.sectionFor env)) := by
  constructor
  · exact List.eq_of_perm_of_sorted
      ((buildPaths_perm env.fs).trans
        (List.perm_insertionSort RepoPdf.compositeLE (RepoPdf.allDocFiles env.fs)).symm)
      (buildPaths_sorted env.fs)
      (List.sorted_insertionSort RepoPdf.compositeLE (RepoPdf.allDocFiles env.fs))
  · rw [RepoPdf.build_markdown, pdfFold_ok env _ [] [] hok]
    simp

/-- C9 witness: a concrete walk with interleaved notebooks and markdown
files; the processed order is the composite sort and the aggregate is the
ordered concatenation of sections. -/
theorem claim_C9_witness :
    RepoPdf.buildPaths envC9.fs =
        (RepoPdf.allDocFiles envC9.fs).insertionSort RepoPdf.compositeLE ∧
      (RepoPdf.build_markdown envC9).1 =
        String.intercalate "\n"
          ((RepoPdf.buildPaths envC9.fs).map (RepoPdf.sectionFor envC9)) :=
  claim_C9 envC9 (by decide)
